import Mathlib

/-!
Shallow embedding of the ObsiCard content-to-card pipeline and its delivery
queue, together with proofs of the spec claims about it.

Strings from the source are modelled as Lean `String`s (backed by `List Char`);
JavaScript runtime values handed to the validator are modelled by the inductive
type `Js`.  External effects (the generation service, the AnkiConnect store,
`JSON.parse`, the sanitizer's regex passes) are modelled as explicit function
parameters, so every embedded operation is a pure, executable Lean function.
-/

namespace ObsiCard

/-! ## TokenUtils (src/utils/TokenUtils.ts) -/

/-- `TokenUtils.countTokens`: `Math.ceil(text.length / 4)`. -/
def countTokens (text : List Char) : Nat :=
  (text.length + 3) / 4

/-- A chunk of text, `TextChunk` from `types.ts`. -/
structure TextChunk where
  content : List Char
  tokenCount : Nat
  index : Nat
  deriving Repr, DecidableEq

/-- `ChunkingResult` from `types.ts`. -/
structure ChunkingResult where
  chunks : List TextChunk
  totalTokens : Nat
  requiresSummarization : Bool
  deriving Repr, DecidableEq

mutual

/-- Splitting on `/\n\n+/` (runs of two or more newlines), as
`text.split(/\n\n+/)` does in `TokenUtils.chunkText`.  After a two-newline
separator, `afterSep` greedily absorbs any further newlines into the
separator, which matches the greedy regex split. -/
def splitParas : List Char → List (List Char)
  | [] => [[]]
  | '\n' :: '\n' :: rest => [] :: afterSep rest
  | c :: rest =>
    match splitParas rest with
    | [] => [[c]]
    | p :: ps => (c :: p) :: ps

/-- Continuation of `splitParas` immediately after a `\n\n` separator: extra
newlines still belong to the separator run. -/
def afterSep : List Char → List (List Char)
  | [] => [[]]
  | '\n' :: rest => afterSep rest
  | c :: rest =>
    match splitParas rest with
    | [] => [[c]]
    | p :: ps => (c :: p) :: ps

end

/-- Whether a character is one of the sentence terminators `.`, `!`, `?`
of the regex `[^.!?]+[.!?]+` in `TokenUtils.splitBySentences`. -/
def isSentenceEnd (c : Char) : Bool :=
  c = '.' || c = '!' || c = '?'

/-- One-pass automaton for the global match `/[^.!?]+[.!?]+/g`.
`acc1` holds the pending run of non-terminator characters (reversed), `acc2`
the pending run of terminators (reversed); a match is emitted when its
terminator run ends (or at the end of input).  Terminators with no preceding
non-terminator run cannot start a match and are skipped, and a trailing
non-terminator run with no terminator after it yields no match — both exactly
as the regex behaves. -/
def msAux (acc1 acc2 : List Char) : List Char → List (List Char)
  | [] => if acc2.isEmpty then [] else [acc1.reverse ++ acc2.reverse]
  | c :: rest =>
    if isSentenceEnd c then
      if acc1.isEmpty then msAux [] [] rest
      else msAux acc1 (c :: acc2) rest
    else
      if acc2.isEmpty then msAux (c :: acc1) [] rest
      else (acc1.reverse ++ acc2.reverse) :: msAux [c] [] rest

/-- Global matching of `text.match(/[^.!?]+[.!?]+/g)`. -/
def matchSentences (l : List Char) : List (List Char) :=
  msAux [] [] l

/-- `TokenUtils.splitBySentences`: `text.match(/[^.!?]+[.!?]+/g) || [text]`. -/
def splitBySentences (text : List Char) : List (List Char) :=
  match matchSentences text with
  | [] => [text]
  | ms => ms

/-- JavaScript `String.prototype.trim` on a character list: whitespace is
stripped from both ends. -/
def trimChars (l : List Char) : List Char :=
  ((l.dropWhile Char.isWhitespace).reverse.dropWhile Char.isWhitespace).reverse

/-- Loop state of the accumulation loop in `TokenUtils.chunkText`:
the chunks flushed so far, the running chunk text, its running token total and
the next chunk index. -/
structure ChunkState where
  chunks : List TextChunk
  currentChunk : List Char
  currentTokenCount : Nat
  chunkIndex : Nat
  deriving Repr, DecidableEq

/-- The inner sentence loop body of `TokenUtils.chunkText` (executed for each
sentence of a paragraph whose own token estimate exceeds the limit). -/
def processSentence (maxChunkSize : Nat) (s : ChunkState) (sent : List Char) :
    ChunkState :=
  let sentenceTokens := countTokens sent
  if s.currentTokenCount + sentenceTokens > maxChunkSize then
    let s1 :=
      if s.currentChunk.isEmpty then s
      else { s with
        chunks := s.chunks ++
          [⟨trimChars s.currentChunk, s.currentTokenCount, s.chunkIndex⟩],
        chunkIndex := s.chunkIndex + 1 }
    { s1 with currentChunk := sent ++ [' '], currentTokenCount := sentenceTokens }
  else
    { s with currentChunk := s.currentChunk ++ sent ++ [' '],
             currentTokenCount := s.currentTokenCount + sentenceTokens }

/-- The outer paragraph loop body of `TokenUtils.chunkText`. -/
def processParagraph (maxChunkSize : Nat) (s : ChunkState) (para : List Char) :
    ChunkState :=
  let paragraphTokens := countTokens para
  if paragraphTokens > maxChunkSize then
    let s1 :=
      if s.currentChunk.isEmpty then s
      else { chunks := s.chunks ++
               [⟨trimChars s.currentChunk, s.currentTokenCount, s.chunkIndex⟩],
             currentChunk := [], currentTokenCount := 0,
             chunkIndex := s.chunkIndex + 1 }
    (splitBySentences para).foldl (processSentence maxChunkSize) s1
  else
    if s.currentTokenCount + paragraphTokens > maxChunkSize then
      { chunks := s.chunks ++
          [⟨trimChars s.currentChunk, s.currentTokenCount, s.chunkIndex⟩],
        currentChunk := para ++ ['\n', '\n'],
        currentTokenCount := paragraphTokens,
        chunkIndex := s.chunkIndex + 1 }
    else
      { s with currentChunk := s.currentChunk ++ para ++ ['\n', '\n'],
               currentTokenCount := s.currentTokenCount + paragraphTokens }

/-- `TokenUtils.chunkText`. -/
def chunkText (text : List Char) (maxChunkSize : Nat) : ChunkingResult :=
  let totalTokens := countTokens text
  if totalTokens ≤ maxChunkSize then
    { chunks := [⟨text, totalTokens, 0⟩], totalTokens,
      requiresSummarization := false }
  else
    let final := (splitParas text).foldl (processParagraph maxChunkSize)
      ⟨[], [], 0, 0⟩
    let chunks :=
      if (trimChars final.currentChunk).isEmpty then final.chunks
      else final.chunks ++
        [⟨trimChars final.currentChunk, final.currentTokenCount, final.chunkIndex⟩]
    { chunks, totalTokens, requiresSummarization := totalTokens > 10000 }

/-! ## JavaScript value model

Runtime values reaching the validator (parsed JSON, generator output) are
modelled by `Js`; JavaScript `undefined` is modelled as an absent field
(`Option.none` from `getField`). -/

inductive Js where
  | null
  | bool (b : Bool)
  | num (n : Int)
  | str (s : String)
  | arr (elems : List Js)
  | obj (fields : List (String × Js))

/-- JavaScript truthiness (`NaN` is not modelled; `undefined` is an absent
field, handled at each use site). -/
def jsTruthy : Js → Bool
  | .null => false
  | .bool b => b
  | .num n => decide (n ≠ 0)
  | .str s => decide (s ≠ "")
  | .arr _ => true
  | .obj _ => true

/-- `typeof x === 'object'` (true for `null`, arrays and records). -/
def jsTypeofObject : Js → Bool
  | .null => true
  | .arr _ => true
  | .obj _ => true
  | _ => false

/-- Property lookup `x[k]`; `none` models `undefined`. -/
def getField : Js → String → Option Js
  | .obj fields, k => (fields.find? (fun f => f.1 == k)).map (·.2)
  | _, _ => none

/-- Lookup of a field that must hold a string, as the validator's
`typeof card.f === 'string'` tests do. -/
def strField (c : Js) (k : String) : Option String :=
  match getField c k with
  | some (.str s) => some s
  | _ => none

/-- JavaScript `String.prototype.length` on the model (one unit per char). -/
def strLen (s : String) : Nat :=
  s.data.length

/-- `s.substring(0, n)`. -/
def substrTo (s : String) (n : Nat) : String :=
  ⟨s.data.take n⟩

/-! ## Sanitizer (src/utils/Sanitizer.ts) -/

/-- `tag.toLowerCase()` (basic-latin model). -/
def jsToLower (s : String) : String :=
  ⟨s.data.map Char.toLower⟩

/-- `tag.trim()`. -/
def jsTrim (s : String) : String :=
  ⟨trimChars s.data⟩

/-- The duplicate-removal pass
`filter((tag, index, self) => self.indexOf(tag) === index)`: keep the first
occurrence of each element. -/
def dedupFirstAux (seen : List String) : List String → List String
  | [] => []
  | t :: ts =>
    if t ∈ seen then dedupFirstAux seen ts
    else t :: dedupFirstAux (t :: seen) ts

/-- `Sanitizer.normalizeTags`: lowercase and trim every tag, drop empty or
over-50-character entries, deduplicate keeping first occurrences, cap at 10. -/
def normalizeTags (tags : List String) : List String :=
  (dedupFirstAux []
    ((tags.map (fun t => jsTrim (jsToLower t))).filter
      (fun t => 0 < strLen t && strLen t ≤ 50))).take 10

/-! ## Validator (src/services/Validator.ts)

`Sanitizer.cleanFlashcardContent` (two regex-rewriting passes applied
independently to front and to back) is abstracted as an explicit `sanitize`
parameter; every claim proved below holds for an arbitrary such function. -/

/-- A `Flashcard` from `types.ts`. -/
structure Flashcard where
  front : String
  back : String
  tags : List String
  source : Option String := none
  deriving Repr, DecidableEq

/-- `ValidationResult` from `types.ts` (the optional `repaired` list is
always set by the embedded code paths, so it is modelled as non-optional). -/
structure ValidationResult where
  isValid : Bool
  errors : List String
  repaired : List Flashcard
  deriving Repr, DecidableEq

/-- `Validator.validateFlashcard`: per-candidate schema check, returning the
validity flag and the error strings. -/
def validateFlashcard (flashcard : Js) : Bool × List String :=
  if !(jsTruthy flashcard) || !(jsTypeofObject flashcard) then
    (false, ["Flashcard must be an object"])
  else
    let frontErrs :=
      match getField flashcard "front" with
      | some (.str s) =>
        if s = "" then ["Flashcard must have a valid \"front\" string"]
        else if strLen (jsTrim s) = 0 then ["Flashcard \"front\" cannot be empty"]
        else if strLen s > 5000 then
          ["Flashcard \"front\" is too long (max 5000 characters)"]
        else []
      | _ => ["Flashcard must have a valid \"front\" string"]
    let backErrs :=
      match getField flashcard "back" with
      | some (.str s) =>
        if s = "" then ["Flashcard must have a valid \"back\" string"]
        else if strLen (jsTrim s) = 0 then ["Flashcard \"back\" cannot be empty"]
        else if strLen s > 10000 then
          ["Flashcard \"back\" is too long (max 10000 characters)"]
        else []
      | _ => ["Flashcard must have a valid \"back\" string"]
    let tagErrs :=
      match getField flashcard "tags" with
      | some (.arr ts) =>
        if ts.all (fun t => match t with | .str _ => true | _ => false) then []
        else ["All tags must be strings"]
      | _ => ["Flashcard must have a \"tags\" array"]
    let errors := frontErrs ++ backErrs ++ tagErrs
    (errors.isEmpty, errors)

/-- The unchecked TypeScript cast `flashcards as Flashcard[]` taken in
`validateFlashcards` when every candidate passed validation: field
extraction, lossless exactly on candidates that validate. -/
def castFlashcard (v : Js) : Flashcard where
  front := (strField v "front").getD ""
  back := (strField v "back").getD ""
  tags :=
    match getField v "tags" with
    | some (.arr ts) => ts.filterMap (fun t => match t with | .str s => some s | _ => none)
    | _ => []
  source := strField v "source"

/-- `Validator.validateFlashcards`: batch validation. -/
def validateFlashcards (flashcards : Js) : ValidationResult :=
  match flashcards with
  | .arr cards =>
    if cards.isEmpty then
      ⟨false, ["Flashcard array is empty"], []⟩
    else
      let allValid := cards.all (fun c => (validateFlashcard c).1)
      let errors := cards.enum.filterMap (fun ic =>
        let r := validateFlashcard ic.2
        if r.1 then none
        else some ("Card " ++ toString (ic.1 + 1) ++ ": " ++
          String.intercalate ", " r.2))
      ⟨allValid, errors, if allValid then cards.map castFlashcard else []⟩
  | _ => ⟨false, ["Expected an array of flashcards"], []⟩

/-- Front extraction in `Validator.repairFlashcard`: `front` when it is a
string (truthiness untested there), else a truthy string `question`, else a
truthy string `prompt`, else the empty string. -/
def extractFront (c : Js) : String :=
  match strField c "front" with
  | some s => s
  | none =>
    match (strField c "question").bind (fun s => if s = "" then none else some s) with
    | some s => s
    | none =>
      match (strField c "prompt").bind (fun s => if s = "" then none else some s) with
      | some s => s
      | none => ""

/-- Back extraction in `Validator.repairFlashcard`: `back`, else `answer`,
else `response`, with the same truthiness pattern as `extractFront`. -/
def extractBack (c : Js) : String :=
  match strField c "back" with
  | some s => s
  | none =>
    match (strField c "answer").bind (fun s => if s = "" then none else some s) with
    | some s => s
    | none =>
      match (strField c "response").bind (fun s => if s = "" then none else some s) with
      | some s => s
      | none => ""

/-- `Validator.repairFlashcard`: best-effort reconstruction of a card;
`none` models the `null` return for an unrepairable candidate. -/
def repairFlashcard (sanitize : String → String) (c : Js) : Option Flashcard :=
  if !(jsTruthy c) || !(jsTypeofObject c) then none
  else
    let front := sanitize (extractFront c)
    let back := sanitize (extractBack c)
    if front = "" ∨ back = "" then none
    else
      let front := if strLen front > 5000 then substrTo front 4997 ++ "..." else front
      let back := if strLen back > 10000 then substrTo back 9997 ++ "..." else back
      let tags0 :=
        match getField c "tags" with
        | some (.arr ts) =>
          ts.filterMap (fun t => match t with | .str s => some s | _ => none)
        | _ => []
      let tags1 := normalizeTags tags0
      let tags := if tags1.isEmpty then ["obsidian"] else tags1
      some { front, back, tags, source := strField c "source" }

/-- `Validator.repairFlashcards` on a candidate list (the `Array.isArray`
guard and the per-candidate `try`/`catch` are vacuous in the model: the input
is a list and `repairFlashcard` is total). -/
def repairFlashcards (sanitize : String → String) (flashcards : List Js) :
    List Flashcard :=
  flashcards.filterMap (repairFlashcard sanitize)

/-- The response-shape unwrapping at the top of
`Validator.validateGroqResponse`, parametrised by the `JSON.parse` oracle
(`none` models a parse exception).  `none` in the result models the
exception path caught by the surrounding `try`/`catch` (a string that does
not parse, or property access on parsed `null`). -/
def unwrapCandidates (jsonParse : String → Option Js) (response : Js) :
    Option (List Js) :=
  match response with
  | .str s =>
    match jsonParse s with
    | none => none
    | some (.arr xs) => some xs
    | some .null => none
    | some v =>
      match getField v "flashcards" with
      | some f =>
        if jsTruthy f then
          match f with
          | .arr xs => some xs
          | _ => some []
        else some []
      | none => some []
  | .arr xs => some xs
  | v =>
    if jsTruthy v && jsTypeofObject v then
      match getField v "flashcards" with
      | some (.arr xs) => some xs
      | _ =>
        match getField v "cards" with
        | some (.arr xs) => some xs
        | _ => some []
    else some []

/-- `Validator.validateGroqResponse`: unwrap, validate, repair on failure. -/
def validateGroqResponse (sanitize : String → String)
    (jsonParse : String → Option Js) (response : Js) : ValidationResult :=
  match unwrapCandidates jsonParse response with
  | none => ⟨false, ["Failed to parse Groq response"], []⟩
  | some flashcards =>
    let validation := validateFlashcards (.arr flashcards)
    if !validation.isValid then
      let repaired := repairFlashcards sanitize flashcards
      ⟨!repaired.isEmpty, if repaired.isEmpty then validation.errors else [],
        repaired⟩
    else validation

/-- The regex `/\[[\s\S]*\]/` of `GroqFlashcardService.extractJSON`: greedy,
so it matches from the first `[` through the last `]` when the latter comes
after the former, and fails otherwise. -/
def jsonArrayMatch (l : List Char) : Option (List Char) :=
  match l.indexOf? '[' with
  | none => none
  | some i =>
    match l.reverse.indexOf? ']' with
    | none => none
    | some k =>
      let j := l.length - 1 - k
      if i < j then some ((l.drop i).take (j - i + 1)) else none

/-- `GroqFlashcardService.extractJSON`: direct `JSON.parse`, then parse of
the extracted bracketed slice; `none` models the thrown errors. -/
def extractJSON (jsonParse : String → Option Js) (text : String) : Option Js :=
  match jsonParse text with
  | some v => some v
  | none =>
    match jsonArrayMatch text.data with
    | some sub => jsonParse ⟨sub⟩
    | none => none

/-- The candidate list obtained from a raw generation-service response text
in `GroqFlashcardService.generateFromChunk`: `extractJSON` followed by the
unwrapping of `validateGroqResponse`. -/
def pipelineCandidates (jsonParse : String → Option Js) (text : String) :
    Option (List Js) :=
  (extractJSON jsonParse text).bind (unwrapCandidates jsonParse)

/-! ## AnkiSyncService (src/services/AnkiSyncService.ts)

Network effects are oracles: `availOk` is the result of `checkAnkiConnect`
(which never throws — it catches internally), `deliver`/`deliverOk` tell
whether `ensureDeckExists` + `createAnkiNote` complete without throwing.
The `persisted` field models the `localStorage` blob written by `saveQueue`;
`isProcessingQueue` is the busy flag. -/

/-- `QueuedSyncItem` from `types.ts`. -/
structure QueuedSyncItem where
  flashcard : Flashcard
  timestamp : Nat
  retryCount : Nat
  deriving Repr, DecidableEq

/-- The mutable state of an `AnkiSyncService` instance. -/
structure SyncState where
  syncQueue : List QueuedSyncItem
  persisted : List QueuedSyncItem
  isProcessingQueue : Bool
  deriving Repr, DecidableEq

/-- `AnkiSyncService.queueFlashcard`: wrap, push, `saveQueue`. -/
def queueFlashcard (ts : Nat) (flashcard : Flashcard) (s : SyncState) : SyncState :=
  let q := s.syncQueue ++ [⟨flashcard, ts, 0⟩]
  { s with syncQueue := q, persisted := q }

/-- The result record of `AnkiSyncService.syncFlashcardWithStatus`. -/
structure SyncOutcome where
  synced : Bool
  queued : Bool
  error : Bool
  deriving Repr, DecidableEq

/-- `AnkiSyncService.syncFlashcardWithStatus`.  `availOk` is the
`checkAnkiConnect` probe; `deliverOk = false` models `ensureDeckExists` or
`createAnkiNote` throwing (the path into the `catch` block). -/
def syncFlashcardWithStatus (enableOfflineQueue availOk deliverOk : Bool)
    (ts : Nat) (flashcard : Flashcard) (s : SyncState) :
    SyncOutcome × SyncState :=
  if !availOk then
    if enableOfflineQueue then (⟨false, true, false⟩, queueFlashcard ts flashcard s)
    else (⟨false, false, true⟩, s)
  else if deliverOk then (⟨true, false, false⟩, s)
  else
    if enableOfflineQueue then (⟨false, true, false⟩, queueFlashcard ts flashcard s)
    else (⟨false, false, true⟩, s)

/-- The item-replay loop of `AnkiSyncService.processQueue` over the snapshot:
successes count, failures are re-pushed with an incremented retry counter
only while `retryCount < maxRetries`.  Returns (success count, new live
queue). -/
def processQueueItems (deliver : Flashcard → Bool) (maxRetries : Nat)
    (items : List QueuedSyncItem) : Nat × List QueuedSyncItem :=
  items.foldl
    (fun acc item =>
      if deliver item.flashcard then (acc.1 + 1, acc.2)
      else if item.retryCount < maxRetries then
        (acc.1, acc.2 ++ [{ item with retryCount := item.retryCount + 1 }])
      else acc)
    (0, [])

/-- `AnkiSyncService.processQueue`.  Returns the success count, the state
after the call, and the trace of flashcards for which a delivery was
attempted (one `createAnkiNote` call each). -/
def processQueue (deliver : Flashcard → Bool) (availOk : Bool)
    (maxRetries : Nat) (s : SyncState) :
    Nat × SyncState × List Flashcard :=
  if s.isProcessingQueue || s.syncQueue.isEmpty then (0, s, [])
  else if !availOk then (0, s, [])
  else
    let r := processQueueItems deliver maxRetries s.syncQueue
    (r.1, ⟨r.2, r.2, false⟩, s.syncQueue.map (·.flashcard))

/-- `AnkiSyncService.loadQueue`: rehydration at construction.  `blob` is
`localStorage.getItem('obsicard-sync-queue')` (`none` = absent), `jsonParse`
the `JSON.parse` oracle and `decode` the unchecked assignment of the parsed
value to `this.syncQueue`. -/
def loadQueue (blob : Option String) (jsonParse : String → Option Js)
    (decode : Js → List QueuedSyncItem) : List QueuedSyncItem :=
  match blob with
  | none => []
  | some s =>
    if s = "" then []
    else
      match jsonParse s with
      | none => []
      | some v => decode v

/-! ## GroqFlashcardService.processChunks (src/services/GroqFlashcardService.ts) -/

/-- The batch decomposition of the loop
`for (let i = 0; i < chunks.length; i += maxParallel)` with
`chunks.slice(i, i + maxParallel)`.  (With `maxParallel = 0` the source loop
never terminates and never issues a call; the model returns no batches.) -/
def toBatches (k : Nat) (l : List α) : List (List α) :=
  if l.isEmpty then []
  else if k = 0 then []
  else l.take k :: toBatches k (l.drop k)
  termination_by l.length
  decreasing_by
    rename_i h1 h2
    have : l ≠ [] := by simpa [List.isEmpty_iff] using h1
    have hl : 0 < l.length := List.length_pos.mpr this
    simp only [List.length_drop]
    omega

/-- `GroqFlashcardService.processChunks`: per batch, one generation call per
chunk (`gen c = none` models a rejected promise, skipped; `some cards` a
fulfilled one), results appended in batch order; the second component is the
trace of issued batches. -/
def processChunks (gen : TextChunk → Option (List Flashcard)) (maxParallel : Nat)
    (chunks : List TextChunk) : List Flashcard × List (List TextChunk) :=
  (toBatches maxParallel chunks).foldl
    (fun acc batch =>
      (acc.1 ++ (batch.filterMap gen).flatten, acc.2 ++ [batch]))
    ([], [])

/-! ## Helper lemmas -/

/-- The queue produced by the replay loop of `processQueue`: exactly the
failed items whose retry counter was below `maxRetries`, in order, each with
the counter incremented. -/
theorem processQueueItems_snd (deliver : Flashcard → Bool) (maxRetries : Nat)
    (items : List QueuedSyncItem) :
    (processQueueItems deliver maxRetries items).2 =
      items.filterMap (fun i =>
        if deliver i.flashcard then none
        else if i.retryCount < maxRetries then
          some ⟨i.flashcard, i.timestamp, i.retryCount + 1⟩
        else none) := by
  have key : ∀ (its : List QueuedSyncItem) (acc : Nat × List QueuedSyncItem),
      (its.foldl
        (fun acc item =>
          if deliver item.flashcard then (acc.1 + 1, acc.2)
          else if item.retryCount < maxRetries then
            (acc.1, acc.2 ++ [{ item with retryCount := item.retryCount + 1 }])
          else acc)
        acc).2 =
      acc.2 ++ its.filterMap (fun i =>
        if deliver i.flashcard then none
        else if i.retryCount < maxRetries then
          some ⟨i.flashcard, i.timestamp, i.retryCount + 1⟩
        else none) := by
    intro its
    induction its with
    | nil => simp
    | cons i its ih =>
      intro acc
      by_cases hd : deliver i.flashcard
      · simp [List.foldl_cons, hd, ih]
      · by_cases hr : i.retryCount < maxRetries
        · simp [List.foldl_cons, hd, hr, ih]
        · simp [List.foldl_cons, hd, hr, ih]
  simpa using key items (0, [])

theorem toBatches_mem_length {α : Type} (k : Nat) (l : List α) (b : List α)
    (hb : b ∈ toBatches k l) : b.length ≤ k := by
  rw [toBatches] at hb
  by_cases h1 : l.isEmpty
  · simp [h1] at hb
  · by_cases h2 : k = 0
    · simp [h1, h2] at hb
    · simp only [h1, h2, if_neg, if_false, Bool.false_eq_true] at hb
      rcases List.mem_cons.mp hb with h | h
      · subst h
        simp only [List.length_take]
        exact Nat.min_le_left k l.length
      · exact toBatches_mem_length k (l.drop k) b h
  termination_by l.length
  decreasing_by
    have : l ≠ [] := by simpa [List.isEmpty_iff] using h1
    have hl : 0 < l.length := List.length_pos.mpr this
    simp only [List.length_drop]
    omega

theorem toBatches_flatten {α : Type} (k : Nat) (hk : 0 < k) (l : List α) :
    (toBatches k l).flatten = l := by
  rw [toBatches]
  by_cases h1 : l.isEmpty
  · simp [h1, List.isEmpty_iff.mp h1]
  · have h2 : ¬ k = 0 := by omega
    simp only [h1, h2, if_neg, if_false, Bool.false_eq_true]
    rw [List.flatten_cons, toBatches_flatten k hk (l.drop k),
      List.take_append_drop]
  termination_by l.length
  decreasing_by
    have : l ≠ [] := by simpa [List.isEmpty_iff] using h1
    have hl : 0 < l.length := List.length_pos.mpr this
    simp only [List.length_drop]
    omega

/-- The batch trace of `processChunks` is exactly `toBatches`. -/
theorem processChunks_snd (gen : TextChunk → Option (List Flashcard))
    (maxParallel : Nat) (chunks : List TextChunk) :
    (processChunks gen maxParallel chunks).2 = toBatches maxParallel chunks := by
  have key : ∀ (bs : List (List TextChunk)) (acc : List Flashcard × List (List TextChunk)),
      (bs.foldl
        (fun acc batch =>
          (acc.1 ++ (batch.filterMap gen).flatten, acc.2 ++ [batch]))
        acc).2 = acc.2 ++ bs := by
    intro bs
    induction bs with
    | nil => simp
    | cons b bs ih => intro acc; simp [ih]
  simpa [processChunks] using key (toBatches maxParallel chunks) ([], [])

/-- The single-chunk early return of `chunkText`. -/
theorem chunkText_of_le (text : List Char) (maxChunkSize : Nat)
    (h : countTokens text ≤ maxChunkSize) :
    chunkText text maxChunkSize =
      ⟨[⟨text, countTokens text, 0⟩], countTokens text, false⟩ := by
  simp [chunkText, h]

/-! ## Claim theorems -/

/-- C1 counterexample: with `maxRetries = 3`, a queued item whose
`retryCount` is `3 - 1 = 2` and whose delivery attempt fails once more is
re-appended to the live queue by `processQueue` (with `retryCount` bumped to
3), not dropped as the claim states. -/
theorem processQueue_retryCeiling_counterexample :
    (2 = 3 - 1) ∧
    (processQueue (fun _ => false) true 3
        ⟨[⟨⟨"Q", "A", ["t"], none⟩, 0, 2⟩], [⟨⟨"Q", "A", ["t"], none⟩, 0, 2⟩],
          false⟩).2.1.syncQueue =
      [⟨⟨"Q", "A", ["t"], none⟩, 0, 3⟩] := by
  exact ⟨rfl, by decide⟩

/-- C1 (amended): in a `processQueue` pass over a non-empty queue with the
store reachable and the busy flag clear, a failing item is re-appended (with
its counter incremented) exactly when its `retryCount` is strictly below
`maxRetries`; an item whose counter has already reached `maxRetries` is
dropped.  In particular an item at `retryCount = maxRetries - 1` survives one
more failure and is dropped only after failing at `retryCount = maxRetries`. -/
theorem processQueue_requeue_iff_under_ceiling (deliver : Flashcard → Bool)
    (maxRetries : Nat) (s : SyncState)
    (hbusy : s.isProcessingQueue = false) (hne : s.syncQueue ≠ []) :
    (processQueue deliver true maxRetries s).2.1.syncQueue =
      s.syncQueue.filterMap (fun i =>
        if deliver i.flashcard then none
        else if i.retryCount < maxRetries then
          some ⟨i.flashcard, i.timestamp, i.retryCount + 1⟩
        else none) := by
  have hq : s.syncQueue.isEmpty = false := by
    simpa [List.isEmpty_iff] using hne
  simp [processQueue, hbusy, hq, processQueueItems_snd]

/-- Witness for the amended C1 theorem at a concrete state: one item below
the ceiling (re-appended, bumped) and one at the ceiling (dropped). -/
theorem processQueue_requeue_iff_under_ceiling_witness :
    (processQueue (fun _ => false) true 3
        ⟨[⟨⟨"Q", "A", ["t"], none⟩, 0, 2⟩, ⟨⟨"R", "B", ["u"], none⟩, 1, 3⟩],
          [], false⟩).2.1.syncQueue =
      [⟨⟨"Q", "A", ["t"], none⟩, 0, 3⟩] := by
  rw [processQueue_requeue_iff_under_ceiling (fun _ => false) 3 _ rfl
    (by simp)]
  decide

/-- C2 counterexample: a text of 40004 characters estimates to 10001 tokens
(> 10,000), yet `chunkText` at `maxSize = 20000` takes the single-chunk early
return and reports `requiresSummarization = false`, refuting the claimed
"iff" in the single-chunk case. -/
theorem chunkText_flag_counterexample :
    10000 < countTokens (List.replicate 40004 'a') ∧
    (chunkText (List.replicate 40004 'a') 20000).requiresSummarization = false := by
  have hlen : countTokens (List.replicate 40004 'a') = 10001 := by
    rw [countTokens, List.length_replicate]
  constructor
  · rw [hlen]
    norm_num
  · rw [chunkText_of_le _ _ (by rw [hlen]; norm_num)]

/-- C2 (amended): `requiresSummarization` is true iff the estimated total
token count both exceeds `maxSize` (so the single-chunk early return is not
taken) and exceeds 10,000; whenever the text fits in one chunk the flag is
false regardless of the token count. -/
theorem chunkText_requiresSummarization_eq (text : List Char) (maxChunkSize : Nat) :
    (chunkText text maxChunkSize).requiresSummarization =
      (decide (maxChunkSize < countTokens text) &&
        decide (10000 < countTokens text)) := by
  by_cases h : countTokens text ≤ maxChunkSize
  · simp [chunkText, h, Nat.not_lt.mpr h]
  · simp [chunkText, h, Nat.not_le.mp h, Nat.lt_of_lt_of_le (Nat.not_le.mp h)]

/-- C3: when the store probe fails or the delivery call throws, a card is
wrapped into a `QueuedSyncItem` with a fresh retry counter, appended to the
queue, persisted, and reported as queued (not failed) if the offline queue is
enabled; with the queue disabled the same conditions report an error. -/
theorem syncFlashcardWithStatus_unreachable (enableOfflineQueue availOk deliverOk : Bool)
    (ts : Nat) (card : Flashcard) (s : SyncState)
    (h : availOk = false ∨ deliverOk = false) :
    (enableOfflineQueue = true →
      syncFlashcardWithStatus enableOfflineQueue availOk deliverOk ts card s =
        (⟨false, true, false⟩,
          { s with syncQueue := s.syncQueue ++ [⟨card, ts, 0⟩],
                   persisted := s.syncQueue ++ [⟨card, ts, 0⟩] })) ∧
    (enableOfflineQueue = false →
      syncFlashcardWithStatus enableOfflineQueue availOk deliverOk ts card s =
        (⟨false, false, true⟩, s)) := by
  constructor <;> intro he <;> subst he
  · rcases h with h | h <;> subst h
    · simp [syncFlashcardWithStatus, queueFlashcard]
    · cases availOk <;> simp [syncFlashcardWithStatus, queueFlashcard]
  · rcases h with h | h <;> subst h
    · simp [syncFlashcardWithStatus]
    · cases availOk <;> simp [syncFlashcardWithStatus]

/-- Witness for C3: concrete store-unreachable deliveries, queue enabled and
disabled. -/
theorem syncFlashcardWithStatus_unreachable_witness :
    (syncFlashcardWithStatus true false true 5 ⟨"Q", "A", ["t"], none⟩
        ⟨[], [], false⟩ =
      (⟨false, true, false⟩,
        ⟨[⟨⟨"Q", "A", ["t"], none⟩, 5, 0⟩], [⟨⟨"Q", "A", ["t"], none⟩, 5, 0⟩],
          false⟩)) ∧
    (syncFlashcardWithStatus false false true 5 ⟨"Q", "A", ["t"], none⟩
        ⟨[], [], false⟩ =
      (⟨false, false, true⟩, ⟨[], [], false⟩)) := by
  constructor
  · exact (syncFlashcardWithStatus_unreachable true false true 5 _ _
      (Or.inl rfl)).1 rfl
  · exact (syncFlashcardWithStatus_unreachable false false true 5 _ _
      (Or.inl rfl)).2 rfl

/-- C4: a non-empty candidate batch containing at least one invalid
candidate makes `validateFlashcards` return `isValid = false` with an empty
`repaired` list — valid candidates in the batch are discarded. -/
theorem validateFlashcards_allOrNothing (cards : List Js) (hne : cards ≠ [])
    (hbad : ∃ c ∈ cards, (validateFlashcard c).1 = false) :
    (validateFlashcards (.arr cards)).isValid = false ∧
    (validateFlashcards (.arr cards)).repaired = [] := by
  have hq : cards.isEmpty = false := by
    simpa [List.isEmpty_iff] using hne
  obtain ⟨c, hc, hcv⟩ := hbad
  have hall : cards.all (fun c => (validateFlashcard c).1) = false := by
    rw [List.all_eq_false]
    exact ⟨c, hc, by simp [hcv]⟩
  constructor <;> simp [validateFlashcards, hq, hall]

/-- Witness for C4: a batch holding one valid card and one invalid (`null`)
candidate is rejected whole, with no repaired subset. -/
theorem validateFlashcards_allOrNothing_witness :
    (validateFlashcards (.arr [.obj [("front", .str "Q"), ("back", .str "A"),
        ("tags", .arr [])], .null])).isValid = false ∧
    (validateFlashcards (.arr [.obj [("front", .str "Q"), ("back", .str "A"),
        ("tags", .arr [])], .null])).repaired = [] := by
  refine validateFlashcards_allOrNothing _ (by simp) ⟨.null, by simp, rfl⟩

/-- C6: the response-shape normalization feeding validation/repair accepts a
raw JSON array, a string parsing to a JSON array, a response text with prose
around a JSON array (recovered by the bracketed-slice extraction fallback of
`extractJSON`), and a record carrying the array under `flashcards` or
`cards`; each is unwrapped to the same uniform candidate list. -/
theorem responseShape_normalization (jsonParse : String → Option Js)
    (s text : String) (xs : List Js) (fields : List (String × Js))
    (sub : List Char) :
    (unwrapCandidates jsonParse (.arr xs) = some xs) ∧
    (jsonParse s = some (.arr xs) →
      unwrapCandidates jsonParse (.str s) = some xs) ∧
    (jsonParse text = none → jsonArrayMatch text.data = some sub →
      jsonParse ⟨sub⟩ = some (.arr xs) →
      pipelineCandidates jsonParse text = some xs) ∧
    (getField (.obj fields) "flashcards" = some (.arr xs) →
      unwrapCandidates jsonParse (.obj fields) = some xs) ∧
    (getField (.obj fields) "flashcards" = none →
      getField (.obj fields) "cards" = some (.arr xs) →
      unwrapCandidates jsonParse (.obj fields) = some xs) := by
  refine ⟨rfl, ?_, ?_, ?_, ?_⟩
  · intro hp
    simp [unwrapCandidates, hp]
  · intro hp hm hsub
    simp [pipelineCandidates, extractJSON, hp, hm, hsub, unwrapCandidates]
  · intro hf
    simp [unwrapCandidates, jsTruthy, jsTypeofObject, hf]
  · intro hf hc
    simp [unwrapCandidates, jsTruthy, jsTypeofObject, hf, hc]

/-- Witness for C6: a concrete finite `JSON.parse` oracle exercising each
accepted response shape, including the prose-wrapped string
`"Sure! [null] there"` recovered via extraction. -/
theorem responseShape_normalization_witness :
    (unwrapCandidates (fun t => if t = "[null]" then some (.arr [.null]) else none)
      (.arr [.null]) = some [.null]) ∧
    (unwrapCandidates (fun t => if t = "[null]" then some (.arr [.null]) else none)
      (.str "[null]") = some [.null]) ∧
    (pipelineCandidates (fun t => if t = "[null]" then some (.arr [.null]) else none)
      "Sure! [null] end" = some [.null]) ∧
    (unwrapCandidates (fun t => if t = "[null]" then some (.arr [.null]) else none)
      (.obj [("flashcards", .arr [.null])]) = some [.null]) ∧
    (unwrapCandidates (fun t => if t = "[null]" then some (.arr [.null]) else none)
      (.obj [("cards", .arr [.null])]) = some [.null]) := by
  have h := responseShape_normalization
    (fun t => if t = "[null]" then some (.arr [.null]) else none)
    "[null]" "Sure! [null] end" [.null] [("flashcards", .arr [.null])] "[null]".data
  have h2 := responseShape_normalization
    (fun t => if t = "[null]" then some (.arr [.null]) else none)
    "[null]" "Sure! [null] end" [.null] [("cards", .arr [.null])] "[null]".data
  refine ⟨h.1, h.2.1 rfl, h.2.2.1 rfl (by decide) rfl,
    h.2.2.2.1 rfl, h2.2.2.2.2 rfl rfl⟩

/-- C8: a `processQueue` call arriving while a pass is already in flight
(busy flag set) returns 0, leaves the live queue and the persisted blob
untouched, and attempts no delivery. -/
theorem processQueue_reentrant_noop (deliver : Flashcard → Bool)
    (availOk : Bool) (maxRetries : Nat) (s : SyncState)
    (h : s.isProcessingQueue = true) :
    processQueue deliver availOk maxRetries s = (0, s, []) := by
  simp [processQueue, h]

/-- Witness for C8 at a busy state with a non-empty queue. -/
theorem processQueue_reentrant_noop_witness :
    processQueue (fun _ => true) true 3
        ⟨[⟨⟨"Q", "A", ["t"], none⟩, 0, 0⟩], [⟨⟨"Q", "A", ["t"], none⟩, 0, 0⟩],
          true⟩ =
      (0, ⟨[⟨⟨"Q", "A", ["t"], none⟩, 0, 0⟩], [⟨⟨"Q", "A", ["t"], none⟩, 0, 0⟩],
        true⟩, []) :=
  processQueue_reentrant_noop _ _ _ _ rfl

/-- C9: generation calls are issued in consecutive batches — the batch trace
of `processChunks` partitions the chunk list in order, and no batch (hence no
set of simultaneously issued calls) holds more than `maxParallelRequests`
chunks; a batch is only folded after the previous one's results are
collected. -/
theorem processChunks_bounded_batches (gen : TextChunk → Option (List Flashcard))
    (maxParallel : Nat) (chunks : List TextChunk) (hk : 1 ≤ maxParallel) :
    ((processChunks gen maxParallel chunks).2.flatten = chunks) ∧
    (∀ b ∈ (processChunks gen maxParallel chunks).2, b.length ≤ maxParallel) := by
  rw [processChunks_snd]
  exact ⟨toBatches_flatten maxParallel hk chunks,
    fun b hb => toBatches_mem_length maxParallel chunks b hb⟩

/-- Witness for C9: three chunks at `maxParallelRequests = 2`. -/
theorem processChunks_bounded_batches_witness :
    ((processChunks (fun _ => none) 2
        [⟨['a'], 1, 0⟩, ⟨['b'], 1, 1⟩, ⟨['c'], 1, 2⟩]).2.flatten =
      [⟨['a'], 1, 0⟩, ⟨['b'], 1, 1⟩, ⟨['c'], 1, 2⟩]) ∧
    (∀ b ∈ (processChunks (fun _ => none) 2
        [⟨['a'], 1, 0⟩, ⟨['b'], 1, 1⟩, ⟨['c'], 1, 2⟩]).2, b.length ≤ 2) :=
  processChunks_bounded_batches _ 2 _ (by decide)

/-- C10: queue rehydration never throws — an absent blob and a blob that
fails to parse both leave the freshly constructed service with an empty
in-memory queue. -/
theorem loadQueue_resilient (blobStr : String)
    (jsonParse : String → Option Js) (decode : Js → List QueuedSyncItem) :
    (loadQueue none jsonParse decode = []) ∧
    (jsonParse blobStr = none → loadQueue (some blobStr) jsonParse decode = []) := by
  refine ⟨rfl, fun hp => ?_⟩
  by_cases h : blobStr = "" <;> simp [loadQueue, h, hp]

/-- Witness for C10: a concrete corrupt blob under an oracle that rejects
it. -/
theorem loadQueue_resilient_witness :
    (loadQueue none (fun _ => none) (fun _ => []) = []) ∧
    (loadQueue (some "corrupt \x7b") (fun _ => none) (fun _ => []) = []) := by
  have h := loadQueue_resilient "corrupt \x7b" (fun _ => none) (fun _ => [])
  exact ⟨h.1, h.2 rfl⟩

/-! ## Character and string helper lemmas (for the repair invariants) -/

theorem char_toLower_toNat (c : Char) (h : 65 ≤ c.toNat ∧ c.toNat ≤ 90) :
    (Char.toLower c).toNat = c.toNat + 32 := by
  unfold Char.toLower
  simp only [h, if_pos]
  have hv : Nat.isValidChar (c.toNat + 32) := by
    left
    have : c.toNat ≤ 90 := h.2
    omega
  rw [Char.ofNat, dif_pos hv]
  simp [Char.ofNatAux, Char.toNat, UInt32.toNat, BitVec.toNat_ofNatLt]

theorem char_toLower_eq_self (c : Char) (h : ¬ (65 ≤ c.toNat ∧ c.toNat ≤ 90)) :
    Char.toLower c = c := by
  unfold Char.toLower
  simp only [h, if_neg]
  simp

theorem char_toLower_idem (c : Char) : (Char.toLower c).toLower = Char.toLower c := by
  by_cases h : 65 ≤ c.toNat ∧ c.toNat ≤ 90
  · have h2 := char_toLower_toNat c h
    apply char_toLower_eq_self
    rw [h2]
    omega
  · rw [char_toLower_eq_self c h]
    exact char_toLower_eq_self c h

theorem trimChars_subset (l : List Char) : trimChars l ⊆ l := by
  intro x hx
  simp only [trimChars, List.mem_reverse] at hx
  have h1 := List.dropWhile_subset (l := (l.dropWhile Char.isWhitespace).reverse)
    Char.isWhitespace hx
  rw [List.mem_reverse] at h1
  exact List.dropWhile_subset Char.isWhitespace h1

theorem dropWhile_dropWhile {α : Type} (p : α → Bool) (l : List α) :
    (l.dropWhile p).dropWhile p = l.dropWhile p := by
  cases h : l.dropWhile p with
  | nil => simp
  | cons x xs =>
    have hx := List.head?_dropWhile_not p l
    rw [h] at hx
    simp only [List.head?_cons] at hx
    simp [List.dropWhile_cons, hx]

/-- The last-side trim `fun m => (m.reverse.dropWhile p).reverse` is
idempotent. -/
theorem revDrop_revDrop {α : Type} (p : α → Bool) (m : List α) :
    (((((m.reverse.dropWhile p).reverse).reverse).dropWhile p).reverse) =
      (m.reverse.dropWhile p).reverse := by
  rw [List.reverse_reverse, dropWhile_dropWhile]

/-- The head of a front-trimmed list stays in place under the back-side trim,
so front-trimming again changes nothing. -/
theorem dropWhile_revDrop_fix {α : Type} (p : α → Bool) (l : List α) :
    (((l.dropWhile p).reverse.dropWhile p).reverse).dropWhile p =
      ((l.dropWhile p).reverse.dropWhile p).reverse := by
  cases h : l.dropWhile p with
  | nil => simp [h]
  | cons x xs =>
    have hx := List.head?_dropWhile_not p l
    rw [h] at hx
    simp only [List.head?_cons] at hx
    simp only [List.reverse_cons]
    rw [List.dropWhile_append]
    by_cases he : (xs.reverse.dropWhile p).isEmpty
    · simp only [he, if_pos]
      simp [List.dropWhile_cons, hx]
    · simp only [he, if_neg, if_false, Bool.false_eq_true]
      rw [List.reverse_append]
      simp [List.dropWhile_cons, hx]

theorem trimChars_idem (l : List Char) : trimChars (trimChars l) = trimChars l := by
  show ((((trimChars l).dropWhile Char.isWhitespace).reverse.dropWhile
      Char.isWhitespace).reverse) = trimChars l
  rw [show (trimChars l).dropWhile Char.isWhitespace = trimChars l from
    dropWhile_revDrop_fix Char.isWhitespace l]
  exact revDrop_revDrop Char.isWhitespace (l.dropWhile Char.isWhitespace)

theorem map_toLower_fixed (l : List Char) (h : ∀ c ∈ l, c.toLower = c) :
    l.map Char.toLower = l := by
  induction l with
  | nil => rfl
  | cons c cs ih =>
    simp only [List.map_cons, h c (List.mem_cons_self c cs)]
    rw [ih (fun d hd => h d (List.mem_cons_of_mem c hd))]

theorem jsToLower_trim_lower_fixed (t : String) :
    jsToLower (jsTrim (jsToLower t)) = jsTrim (jsToLower t) := by
  show (⟨(trimChars (t.data.map Char.toLower)).map Char.toLower⟩ : String) =
    ⟨trimChars (t.data.map Char.toLower)⟩
  have hfix : ∀ c ∈ trimChars (t.data.map Char.toLower), c.toLower = c := by
    intro c hc
    have := trimChars_subset _ hc
    obtain ⟨d, _, rfl⟩ := List.mem_map.mp this
    exact char_toLower_idem d
  rw [map_toLower_fixed _ hfix]

theorem jsTrim_trim_lower_fixed (t : String) :
    jsTrim (jsTrim (jsToLower t)) = jsTrim (jsToLower t) := by
  show (⟨trimChars (trimChars (jsToLower t).data)⟩ : String) = ⟨trimChars (jsToLower t).data⟩
  rw [trimChars_idem]

theorem mem_dedupFirstAux (seen : List String) (l : List String) (x : String)
    (hx : x ∈ dedupFirstAux seen l) : x ∈ l := by
  induction l generalizing seen with
  | nil => simp [dedupFirstAux] at hx
  | cons t ts ih =>
    by_cases h : t ∈ seen
    · simp only [dedupFirstAux, h, if_pos] at hx
      exact List.mem_cons_of_mem t (ih seen hx)
    · simp only [dedupFirstAux, h, if_neg, if_false] at hx
      rcases List.mem_cons.mp hx with h1 | h1
      · exact h1 ▸ List.mem_cons_self t ts
      · exact List.mem_cons_of_mem t (ih (t :: seen) h1)

theorem dedupFirstAux_nodup (seen : List String) (l : List String) :
    (dedupFirstAux seen l).Nodup ∧ ∀ x ∈ dedupFirstAux seen l, x ∉ seen := by
  induction l generalizing seen with
  | nil => simp [dedupFirstAux]
  | cons t ts ih =>
    by_cases h : t ∈ seen
    · simpa [dedupFirstAux, h] using ih seen
    · obtain ⟨ihn, ihs⟩ := ih (t :: seen)
      simp only [dedupFirstAux, h, if_neg, if_false]
      constructor
      · refine List.nodup_cons.mpr ⟨fun hmem => ?_, ihn⟩
        exact (ihs t hmem) (List.mem_cons_self t seen)
      · intro x hx
        rcases List.mem_cons.mp hx with h1 | h1
        · exact h1 ▸ h
        · exact fun hs => (ihs x h1) (List.mem_cons_of_mem t hs)

theorem string_ne_empty_of_strLen_pos (s : String) (h : 0 < strLen s) : s ≠ "" := by
  intro he
  rw [he] at h
  simp [strLen] at h

/-- Every tag surviving `normalizeTags` is non-empty, at most 50 characters,
lower-case fixed and trim fixed. -/
theorem normalizeTags_mem (tags : List String) (t : String)
    (ht : t ∈ normalizeTags tags) :
    t ≠ "" ∧ strLen t ≤ 50 ∧ jsToLower t = t ∧ jsTrim t = t := by
  have h1 : t ∈ dedupFirstAux []
      ((tags.map (fun t => jsTrim (jsToLower t))).filter
        (fun t => 0 < strLen t && strLen t ≤ 50)) :=
    List.take_subset 10 _ ht
  have h2 := mem_dedupFirstAux _ _ _ h1
  have h3 := List.mem_filter.mp h2
  obtain ⟨u, _, rfl⟩ := List.mem_map.mp h3.1
  have h4 := h3.2
  simp only [Bool.and_eq_true, decide_eq_true_eq] at h4
  exact ⟨string_ne_empty_of_strLen_pos _ h4.1, h4.2,
    jsToLower_trim_lower_fixed u, jsTrim_trim_lower_fixed u⟩

theorem normalizeTags_nodup (tags : List String) : (normalizeTags tags).Nodup :=
  (List.take_sublist 10 _).nodup (dedupFirstAux_nodup [] _).1

theorem normalizeTags_length_le (tags : List String) :
    (normalizeTags tags).length ≤ 10 := by
  simp only [normalizeTags, List.length_take]
  exact Nat.min_le_left 10 _

theorem strLen_append (a b : String) : strLen (a ++ b) = strLen a + strLen b := by
  simp [strLen, String.data_append]

theorem strLen_substrTo (s : String) (n : Nat) :
    strLen (substrTo s n) = min n (strLen s) := by
  simp [strLen, substrTo]

/-- Field-level guarantees of a successful `repairFlashcard`, for any
sanitizer. -/
theorem repairFlashcard_some_spec (sanitize : String → String) (c : Js)
    (fc : Flashcard) (h : repairFlashcard sanitize c = some fc) :
    fc.front ≠ "" ∧ strLen fc.front ≤ 5000 ∧
    (5000 < strLen (sanitize (extractFront c)) →
      fc.front = substrTo (sanitize (extractFront c)) 4997 ++ "...") ∧
    fc.back ≠ "" ∧ strLen fc.back ≤ 10000 ∧
    (10000 < strLen (sanitize (extractBack c)) →
      fc.back = substrTo (sanitize (extractBack c)) 9997 ++ "...") ∧
    1 ≤ fc.tags.length ∧ fc.tags.length ≤ 10 ∧ fc.tags.Nodup ∧
    (∀ t ∈ fc.tags, t ≠ "" ∧ strLen t ≤ 50 ∧ jsToLower t = t ∧ jsTrim t = t) := by
  simp only [repairFlashcard] at h
  by_cases h1 : (!jsTruthy c || !jsTypeofObject c) = true
  · simp [h1] at h
  · simp only [h1, if_false, Bool.false_eq_true] at h
    by_cases h2 : sanitize (extractFront c) = "" ∨ sanitize (extractBack c) = ""
    · simp [h2] at h
    · simp only [h2, if_false] at h
      push_neg at h2
      obtain ⟨hf0, hb0⟩ := h2
      rw [Option.some_inj] at h
      subst h
      refine ⟨?_, ?_, ?_, ?_, ?_, ?_, ?_, ?_, ?_, ?_⟩
      · by_cases h5 : strLen (sanitize (extractFront c)) > 5000
        · simp only [h5, if_pos]
          apply string_ne_empty_of_strLen_pos
          rw [strLen_append, strLen_substrTo]
          omega
        · simpa [h5] using hf0
      · by_cases h5 : strLen (sanitize (extractFront c)) > 5000
        · simp only [h5, if_pos]
          rw [strLen_append, strLen_substrTo]
          have h3 : strLen ("..." : String) = 3 := rfl
          omega
        · simp only [h5, if_neg, if_false]
          omega
      · intro h5
        simp [Nat.lt_iff_add_one_le.mp h5, show 5000 < strLen (sanitize (extractFront c)) from h5]
      · by_cases h5 : strLen (sanitize (extractBack c)) > 10000
        · simp only [h5, if_pos]
          apply string_ne_empty_of_strLen_pos
          rw [strLen_append, strLen_substrTo]
          omega
        · simpa [h5] using hb0
      · by_cases h5 : strLen (sanitize (extractBack c)) > 10000
        · simp only [h5, if_pos]
          rw [strLen_append, strLen_substrTo]
          have h3 : strLen ("..." : String) = 3 := rfl
          omega
        · simp only [h5, if_neg, if_false]
          omega
      · intro h5
        simp [show 10000 < strLen (sanitize (extractBack c)) from h5]
      · by_cases ht : (normalizeTags (match getField c "tags" with
          | some (.arr ts) =>
            ts.filterMap (fun t => match t with | .str s => some s | _ => none)
          | _ => [])).isEmpty
        · simp [ht]
        · simp only [ht, if_neg, if_false, Bool.false_eq_true]
          refine Nat.succ_le_of_lt (List.length_pos.mpr fun he => ht ?_)
          rw [he]
          rfl
      · by_cases ht : (normalizeTags (match getField c "tags" with
          | some (.arr ts) =>
            ts.filterMap (fun t => match t with | .str s => some s | _ => none)
          | _ => [])).isEmpty
        · simp [ht]
        · simp only [ht, if_neg, if_false, Bool.false_eq_true]
          exact normalizeTags_length_le _
      · by_cases ht : (normalizeTags (match getField c "tags" with
          | some (.arr ts) =>
            ts.filterMap (fun t => match t with | .str s => some s | _ => none)
          | _ => [])).isEmpty
        · simp [ht]
        · simp only [ht, if_neg, if_false, Bool.false_eq_true]
          exact normalizeTags_nodup _
      · by_cases ht : (normalizeTags (match getField c "tags" with
          | some (.arr ts) =>
            ts.filterMap (fun t => match t with | .str s => some s | _ => none)
          | _ => [])).isEmpty
        · intro t htag
          simp only [ht, if_pos, List.mem_singleton] at htag
          subst htag
          refine ⟨by decide, by decide, by decide, by decide⟩
        · intro t htag
          simp only [ht, if_neg, if_false, Bool.false_eq_true] at htag
          exact normalizeTags_mem _ t htag

/-- C5: every card returned by `repairFlashcards` — for an arbitrary input
candidate list and an arbitrary sanitizer — has a non-empty front of at most
5000 characters (an overlength front having been truncated at 4997 characters
and finished with the three-character ellipsis marker), a non-empty back of at
most 10000 characters, and 1 to 10 tags, each non-empty, trimmed, lowercase,
at most 50 characters, with no duplicates; no card with an empty front or
back is ever produced. -/
theorem repairFlashcards_invariants (sanitize : String → String)
    (cards : List Js) (fc : Flashcard)
    (hfc : fc ∈ repairFlashcards sanitize cards) :
    (fc.front ≠ "" ∧ strLen fc.front ≤ 5000 ∧
      fc.back ≠ "" ∧ strLen fc.back ≤ 10000 ∧
      1 ≤ fc.tags.length ∧ fc.tags.length ≤ 10 ∧ fc.tags.Nodup ∧
      (∀ t ∈ fc.tags, t ≠ "" ∧ strLen t ≤ 50 ∧ jsToLower t = t ∧ jsTrim t = t)) ∧
    ∃ c ∈ cards, repairFlashcard sanitize c = some fc ∧
      (5000 < strLen (sanitize (extractFront c)) →
        fc.front = substrTo (sanitize (extractFront c)) 4997 ++ "...") := by
  obtain ⟨c, hc, hrep⟩ := List.mem_filterMap.mp hfc
  obtain ⟨p1, p2, p3, p4, p5, p6, p7, p8, p9, p10⟩ :=
    repairFlashcard_some_spec sanitize c fc hrep
  exact ⟨⟨p1, p2, p4, p5, p7, p8, p9, p10⟩, c, hc, hrep, p3⟩

/-- Witness for C5: repairing a candidate that uses the alternate
`question`/`answer` field names (with the identity sanitizer) produces
`⟨"Q1", "A1", ["obsidian"]⟩`, which meets every invariant. -/
theorem repairFlashcards_invariants_witness :
    (((⟨"Q1", "A1", ["obsidian"], none⟩ : Flashcard).front ≠ "" ∧
      strLen (⟨"Q1", "A1", ["obsidian"], none⟩ : Flashcard).front ≤ 5000 ∧
      (⟨"Q1", "A1", ["obsidian"], none⟩ : Flashcard).back ≠ "" ∧
      strLen (⟨"Q1", "A1", ["obsidian"], none⟩ : Flashcard).back ≤ 10000 ∧
      1 ≤ (⟨"Q1", "A1", ["obsidian"], none⟩ : Flashcard).tags.length ∧
      (⟨"Q1", "A1", ["obsidian"], none⟩ : Flashcard).tags.length ≤ 10 ∧
      (⟨"Q1", "A1", ["obsidian"], none⟩ : Flashcard).tags.Nodup ∧
      (∀ t ∈ (⟨"Q1", "A1", ["obsidian"], none⟩ : Flashcard).tags,
        t ≠ "" ∧ strLen t ≤ 50 ∧ jsToLower t = t ∧ jsTrim t = t)) ∧
    ∃ c ∈ [Js.obj [("question", Js.str "Q1"), ("answer", Js.str "A1")]],
      repairFlashcard (fun s => s) c = some ⟨"Q1", "A1", ["obsidian"], none⟩ ∧
      (5000 < strLen ((fun s => s) (extractFront c)) →
        (⟨"Q1", "A1", ["obsidian"], none⟩ : Flashcard).front =
          substrTo ((fun s => s) (extractFront c)) 4997 ++ "...")) :=
  repairFlashcards_invariants (fun s => s)
    [Js.obj [("question", Js.str "Q1"), ("answer", Js.str "A1")]]
    ⟨"Q1", "A1", ["obsidian"], none⟩ (by decide)

/-- Invariant-preserving fold: a property stable under every step for the
folded elements holds of the final state. -/
theorem foldl_inv {σ α : Type} (Inv : σ → Prop) (f : σ → α → σ) (L : List α)
    (hstep : ∀ s a, a ∈ L → Inv s → Inv (f s a)) :
    ∀ s, Inv s → Inv (L.foldl f s) := by
  induction L with
  | nil => intro s hs; simpa using hs
  | cons a L ih =>
    intro s hs
    rw [List.foldl_cons]
    exact ih (fun s b hb => hstep s b (List.mem_cons_of_mem a hb)) _
      (hstep s a (List.mem_cons_self a L) hs)

/-- One step of the sentence loop of `chunkText` preserves the chunk-size
invariant: every flushed chunk is within the limit or records a single
oversized sentence, and the running chunk is within the limit or holds
exactly one oversized sentence. -/
theorem processSentence_inv (text : List Char) (maxChunkSize : Nat)
    (p : List Char) (hp : p ∈ splitParas text)
    (hpbig : maxChunkSize < countTokens p)
    (st : ChunkState) (sent : List Char) (hsent : sent ∈ splitBySentences p)
    (hchunks : ∀ ch ∈ st.chunks,
      ch.tokenCount ≤ maxChunkSize ∨
      ∃ q ∈ splitParas text, maxChunkSize < countTokens q ∧
        ∃ sq ∈ splitBySentences q, maxChunkSize < countTokens sq ∧
          ch.tokenCount = countTokens sq ∧ ch.content = trimChars (sq ++ [' ']))
    (hcur : st.currentTokenCount ≤ maxChunkSize ∨
      ∃ q ∈ splitParas text, maxChunkSize < countTokens q ∧
        ∃ sq ∈ splitBySentences q, maxChunkSize < countTokens sq ∧
          st.currentTokenCount = countTokens sq ∧ st.currentChunk = sq ++ [' ']) :
    (∀ ch ∈ (processSentence maxChunkSize st sent).chunks,
      ch.tokenCount ≤ maxChunkSize ∨
      ∃ q ∈ splitParas text, maxChunkSize < countTokens q ∧
        ∃ sq ∈ splitBySentences q, maxChunkSize < countTokens sq ∧
          ch.tokenCount = countTokens sq ∧ ch.content = trimChars (sq ++ [' '])) ∧
    ((processSentence maxChunkSize st sent).currentTokenCount ≤ maxChunkSize ∨
      ∃ q ∈ splitParas text, maxChunkSize < countTokens q ∧
        ∃ sq ∈ splitBySentences q, maxChunkSize < countTokens sq ∧
          (processSentence maxChunkSize st sent).currentTokenCount = countTokens sq ∧
          (processSentence maxChunkSize st sent).currentChunk = sq ++ [' ']) := by
  by_cases hov : st.currentTokenCount + countTokens sent > maxChunkSize
  · have hflush : ∀ ch ∈ (if st.currentChunk.isEmpty then st
        else { st with
          chunks := st.chunks ++
            [⟨trimChars st.currentChunk, st.currentTokenCount, st.chunkIndex⟩],
          chunkIndex := st.chunkIndex + 1 } : ChunkState).chunks,
        ch.tokenCount ≤ maxChunkSize ∨
        ∃ q ∈ splitParas text, maxChunkSize < countTokens q ∧
          ∃ sq ∈ splitBySentences q, maxChunkSize < countTokens sq ∧
            ch.tokenCount = countTokens sq ∧ ch.content = trimChars (sq ++ [' ']) := by
      by_cases he : st.currentChunk.isEmpty
      · simpa [he] using hchunks
      · intro ch hch
        simp only [he, if_neg, if_false, Bool.false_eq_true, List.mem_append,
          List.mem_singleton] at hch
        rcases hch with hch | hch
        · exact hchunks ch hch
        · subst hch
          rcases hcur with hcur | ⟨q, hq, hqbig, sq, hsq, hsqbig, hcnt, hchk⟩
          · exact Or.inl hcur
          · exact Or.inr ⟨q, hq, hqbig, sq, hsq, hsqbig, hcnt, by rw [hchk]⟩
    constructor
    · intro ch hch
      apply hflush
      simpa [processSentence, hov] using hch
    · by_cases hbig : maxChunkSize < countTokens sent
      · refine Or.inr ⟨p, hp, hpbig, sent, hsent, hbig, ?_, ?_⟩ <;>
          simp [processSentence, hov]
      · refine Or.inl ?_
        simp only [processSentence, hov, if_pos]
        omega
  · constructor
    · intro ch hch
      apply hchunks
      simpa [processSentence, hov] using hch
    · refine Or.inl ?_
      simp only [processSentence, hov, if_neg, if_false]
      omega

/-- One step of the paragraph loop of `chunkText` preserves the chunk-size
invariant. -/
theorem processParagraph_inv (text : List Char) (maxChunkSize : Nat)
    (st : ChunkState) (p : List Char) (hp : p ∈ splitParas text)
    (hchunks : ∀ ch ∈ st.chunks,
      ch.tokenCount ≤ maxChunkSize ∨
      ∃ q ∈ splitParas text, maxChunkSize < countTokens q ∧
        ∃ sq ∈ splitBySentences q, maxChunkSize < countTokens sq ∧
          ch.tokenCount = countTokens sq ∧ ch.content = trimChars (sq ++ [' ']))
    (hcur : st.currentTokenCount ≤ maxChunkSize ∨
      ∃ q ∈ splitParas text, maxChunkSize < countTokens q ∧
        ∃ sq ∈ splitBySentences q, maxChunkSize < countTokens sq ∧
          st.currentTokenCount = countTokens sq ∧ st.currentChunk = sq ++ [' ']) :
    (∀ ch ∈ (processParagraph maxChunkSize st p).chunks,
      ch.tokenCount ≤ maxChunkSize ∨
      ∃ q ∈ splitParas text, maxChunkSize < countTokens q ∧
        ∃ sq ∈ splitBySentences q, maxChunkSize < countTokens sq ∧
          ch.tokenCount = countTokens sq ∧ ch.content = trimChars (sq ++ [' '])) ∧
    ((processParagraph maxChunkSize st p).currentTokenCount ≤ maxChunkSize ∨
      ∃ q ∈ splitParas text, maxChunkSize < countTokens q ∧
        ∃ sq ∈ splitBySentences q, maxChunkSize < countTokens sq ∧
          (processParagraph maxChunkSize st p).currentTokenCount = countTokens sq ∧
          (processParagraph maxChunkSize st p).currentChunk = sq ++ [' ']) := by
  by_cases hbig : countTokens p > maxChunkSize
  · have key := foldl_inv
      (fun st : ChunkState =>
        (∀ ch ∈ st.chunks,
          ch.tokenCount ≤ maxChunkSize ∨
          ∃ q ∈ splitParas text, maxChunkSize < countTokens q ∧
            ∃ sq ∈ splitBySentences q, maxChunkSize < countTokens sq ∧
              ch.tokenCount = countTokens sq ∧ ch.content = trimChars (sq ++ [' '])) ∧
        (st.currentTokenCount ≤ maxChunkSize ∨
          ∃ q ∈ splitParas text, maxChunkSize < countTokens q ∧
            ∃ sq ∈ splitBySentences q, maxChunkSize < countTokens sq ∧
              st.currentTokenCount = countTokens sq ∧ st.currentChunk = sq ++ [' ']))
      (processSentence maxChunkSize) (splitBySentences p)
      (fun s sent hsent hs =>
        processSentence_inv text maxChunkSize p hp hbig s sent hsent hs.1 hs.2)
      (if st.currentChunk.isEmpty then st
        else { chunks := st.chunks ++
                 [⟨trimChars st.currentChunk, st.currentTokenCount, st.chunkIndex⟩],
               currentChunk := [], currentTokenCount := 0,
               chunkIndex := st.chunkIndex + 1 })
    have hinit :
        (∀ ch ∈ (if st.currentChunk.isEmpty then st
          else { chunks := st.chunks ++
                   [⟨trimChars st.currentChunk, st.currentTokenCount, st.chunkIndex⟩],
                 currentChunk := [], currentTokenCount := 0,
                 chunkIndex := st.chunkIndex + 1 } : ChunkState).chunks,
          ch.tokenCount ≤ maxChunkSize ∨
          ∃ q ∈ splitParas text, maxChunkSize < countTokens q ∧
            ∃ sq ∈ splitBySentences q, maxChunkSize < countTokens sq ∧
              ch.tokenCount = countTokens sq ∧ ch.content = trimChars (sq ++ [' '])) ∧
        ((if st.currentChunk.isEmpty then st
          else { chunks := st.chunks ++
                   [⟨trimChars st.currentChunk, st.currentTokenCount, st.chunkIndex⟩],
                 currentChunk := [], currentTokenCount := 0,
                 chunkIndex := st.chunkIndex + 1 } : ChunkState).currentTokenCount
            ≤ maxChunkSize ∨
          ∃ q ∈ splitParas text, maxChunkSize < countTokens q ∧
            ∃ sq ∈ splitBySentences q, maxChunkSize < countTokens sq ∧
              (if st.currentChunk.isEmpty then st
                else { chunks := st.chunks ++
                         [⟨trimChars st.currentChunk, st.currentTokenCount,
                           st.chunkIndex⟩],
                       currentChunk := [], currentTokenCount := 0,
                       chunkIndex := st.chunkIndex + 1 } : ChunkState).currentTokenCount
                = countTokens sq ∧
              (if st.currentChunk.isEmpty then st
                else { chunks := st.chunks ++
                         [⟨trimChars st.currentChunk, st.currentTokenCount,
                           st.chunkIndex⟩],
                       currentChunk := [], currentTokenCount := 0,
                       chunkIndex := st.chunkIndex + 1 } : ChunkState).currentChunk
                = sq ++ [' ']) := by
      by_cases he : st.currentChunk.isEmpty
      · simp only [he, if_pos]
        exact ⟨hchunks, hcur⟩
      · simp only [he, if_neg, if_false, Bool.false_eq_true]
        constructor
        · intro ch hch
          simp only [List.mem_append, List.mem_singleton] at hch
          rcases hch with hch | hch
          · exact hchunks ch hch
          · subst hch
            rcases hcur with hcur | ⟨q, hq, hqbig, sq, hsq, hsqbig, hcnt, hchk⟩
            · exact Or.inl hcur
            · exact Or.inr ⟨q, hq, hqbig, sq, hsq, hsqbig, hcnt, by rw [hchk]⟩
        · exact Or.inl (Nat.zero_le _)
    have hres := key hinit
    constructor
    · intro ch hch
      refine hres.1 ch ?_
      simpa [processParagraph, hbig] using hch
    · have h2 := hres.2
      simp only [processParagraph, hbig, if_pos]
      exact h2
  · by_cases hov : st.currentTokenCount + countTokens p > maxChunkSize
    · constructor
      · intro ch hch
        simp only [processParagraph, hbig, hov, if_pos, if_neg, if_false,
          List.mem_append, List.mem_singleton] at hch
        rcases hch with hch | hch
        · exact hchunks ch hch
        · subst hch
          rcases hcur with hcur | ⟨q, hq, hqbig, sq, hsq, hsqbig, hcnt, hchk⟩
          · exact Or.inl hcur
          · exact Or.inr ⟨q, hq, hqbig, sq, hsq, hsqbig, hcnt, by rw [hchk]⟩
      · refine Or.inl ?_
        simp only [processParagraph, hbig, hov, if_pos, if_neg, if_false]
        omega
    · constructor
      · intro ch hch
        apply hchunks
        simpa [processParagraph, hbig, hov] using hch
      · refine Or.inl ?_
        simp only [processParagraph, hbig, hov, if_neg, if_false]
        omega

/-- C7: every chunk produced by `chunkText` stays within the token limit,
except a chunk consisting of a single sentence (as produced by
`splitBySentences`, which also covers a paragraph without sentence-ending
punctuation, returned whole) whose own token estimate exceeds the limit and
which is emitted whole. -/
theorem chunkText_chunk_size (text : List Char) (maxChunkSize : Nat)
    (ch : TextChunk) (hch : ch ∈ (chunkText text maxChunkSize).chunks) :
    ch.tokenCount ≤ maxChunkSize ∨
    ∃ q ∈ splitParas text, maxChunkSize < countTokens q ∧
      ∃ sq ∈ splitBySentences q, maxChunkSize < countTokens sq ∧
        ch.tokenCount = countTokens sq ∧ ch.content = trimChars (sq ++ [' ']) := by
  by_cases h : countTokens text ≤ maxChunkSize
  · simp only [chunkText, h, if_pos, List.mem_singleton] at hch
    subst hch
    exact Or.inl h
  · have hres := foldl_inv
      (fun st : ChunkState =>
        (∀ c ∈ st.chunks,
          c.tokenCount ≤ maxChunkSize ∨
          ∃ q ∈ splitParas text, maxChunkSize < countTokens q ∧
            ∃ sq ∈ splitBySentences q, maxChunkSize < countTokens sq ∧
              c.tokenCount = countTokens sq ∧ c.content = trimChars (sq ++ [' '])) ∧
        (st.currentTokenCount ≤ maxChunkSize ∨
          ∃ q ∈ splitParas text, maxChunkSize < countTokens q ∧
            ∃ sq ∈ splitBySentences q, maxChunkSize < countTokens sq ∧
              st.currentTokenCount = countTokens sq ∧ st.currentChunk = sq ++ [' ']))
      (processParagraph maxChunkSize) (splitParas text)
      (fun st p hp hs =>
        processParagraph_inv text maxChunkSize st p hp hs.1 hs.2)
      ⟨[], [], 0, 0⟩ ⟨by simp, Or.inl (Nat.zero_le _)⟩
    simp only [chunkText, h, if_neg, if_false] at hch
    by_cases hemp : (trimChars ((splitParas text).foldl (processParagraph maxChunkSize)
        ⟨[], [], 0, 0⟩).currentChunk).isEmpty
    · rw [if_pos hemp] at hch
      exact hres.1 ch hch
    · rw [if_neg hemp] at hch
      rcases List.mem_append.mp hch with hch | hch
      · exact hres.1 ch hch
      · rw [List.mem_singleton] at hch
        subst hch
        rcases hres.2 with hc | ⟨q, hq, hqbig, sq, hsq, hsqbig, hcnt, hchk⟩
        · exact Or.inl hc
        · exact Or.inr ⟨q, hq, hqbig, sq, hsq, hsqbig, hcnt, by rw [hchk]⟩

/-- Witness for C7 on `"aaaaaaaa. b."` at limit 1: the chunk holding the
single oversized sentence `"aaaaaaaa."` (3 tokens) is emitted whole, the
other chunk is within the limit. -/
theorem chunkText_chunk_size_witness :
    ((⟨"aaaaaaaa.".data, 3, 0⟩ : TextChunk) ∈
      (chunkText "aaaaaaaa. b.".data 1).chunks) ∧
    ((⟨"aaaaaaaa.".data, 3, 0⟩ : TextChunk).tokenCount ≤ 1 ∨
    ∃ q ∈ splitParas "aaaaaaaa. b.".data, 1 < countTokens q ∧
      ∃ sq ∈ splitBySentences q, 1 < countTokens sq ∧
        (⟨"aaaaaaaa.".data, 3, 0⟩ : TextChunk).tokenCount = countTokens sq ∧
        (⟨"aaaaaaaa.".data, 3, 0⟩ : TextChunk).content = trimChars (sq ++ [' '])) :=
  ⟨by decide, chunkText_chunk_size "aaaaaaaa. b.".data 1 _ (by decide)⟩

end ObsiCard
